import Mathlib

/-!
Verification of the monorail scaffolding engine (the plop CLI wrapper in
`plop-cli.js` and the helper/table functions of `plopfile.js`).

JavaScript strings are modelled as Lean `String`s; the JS string primitives
used by the code (`trim`, `split`, `startsWith`, `endsWith`, `slice`,
`replace` of a first occurrence, `Array.prototype.join`) are modelled over
`String.data` (`List Char`).  The `\s` character class and `trim`'s
whitespace set are modelled by their ASCII part, which is the part the
generator inputs exercise.  `JSON.parse` is modelled by a strict
recursive-descent JSON parser returning `Option`; a parse exception is
modelled as `none`.
-/

namespace Monorail

/-- ASCII part of the JS `\s` class / `String.prototype.trim` whitespace. -/
def jsWS (c : Char) : Bool :=
  c = ' ' || c = '\t' || c = '\n' || c = '\r' || c = '\x0b' || c = '\x0c'

/-- Drop leading JS whitespace (the left half of `String.prototype.trim`). -/
def trimL (l : List Char) : List Char := l.dropWhile jsWS

/-- Drop trailing JS whitespace (the right half of `String.prototype.trim`). -/
def trimR (l : List Char) : List Char := (l.reverse.dropWhile jsWS).reverse

/-- `String.prototype.trim`: drop whitespace from both ends. -/
def trimChars (l : List Char) : List Char := trimR (trimL l)

/-- `String.prototype.trim` on `String`. -/
def jsTrim (s : String) : String := ⟨trimChars s.data⟩

/-- `String.prototype.split` with a single-character separator.  Like the JS
function it returns `[""]` on the empty string and keeps empty parts. -/
def splitOnChar (sep : Char) : List Char → List (List Char)
  | [] => [[]]
  | c :: cs =>
    if c = sep then [] :: splitOnChar sep cs
    else
      match splitOnChar sep cs with
      | [] => [[c]]
      | p :: ps => (c :: p) :: ps

/-- `String.prototype.startsWith`. -/
def jsStartsWith (s pat : String) : Bool := pat.data.isPrefixOf s.data

/-- `String.prototype.endsWith`. -/
def jsEndsWith (s pat : String) : Bool := pat.data.isSuffixOf s.data

/-- Replace the first occurrence of `pat` (scanning left to right), as JS
`String.prototype.replace` does for a string pattern. -/
def replFirst (pat repl : List Char) : List Char → List Char
  | [] => if pat.isPrefixOf ([] : List Char) then repl else []
  | c :: cs =>
    if pat.isPrefixOf (c :: cs) then repl ++ (c :: cs).drop pat.length
    else c :: replFirst pat repl cs

/-- `String.prototype.replace` with a string pattern (first occurrence only). -/
def jsReplaceFirst (s pat repl : String) : String := ⟨replFirst pat.data repl.data s.data⟩

/-- `Array.prototype.join` for an array of strings. -/
def joinJS (sep : String) : List String → String
  | [] => ""
  | [x] => x
  | x :: xs => x ++ sep ++ joinJS sep xs

/-! ### JSON values and a model of `JSON.parse`

`JSON.parse` is a host primitive; it is modelled by a strict recursive
descent parser for the JSON grammar (RFC 8259): a JS exception is `none`.
Numbers are kept as their lexemes, which is enough for this code base —
no generator inspects a parsed number. -/

/-- A parsed JSON value (a dynamically typed JS value produced by
`JSON.parse`). -/
inductive JsonV where
  | jnull
  | jbool (b : Bool)
  | jnum (lexeme : String)
  | jstr (s : String)
  | jarr (elems : List JsonV)
  | jobj (props : List (String × JsonV))

/-- JSON insignificant whitespace (RFC 8259: space, tab, LF, CR). -/
def jsonWS (c : Char) : Bool := c = ' ' || c = '\t' || c = '\n' || c = '\r'

/-- Skip JSON whitespace. -/
def skipWs (l : List Char) : List Char := l.dropWhile jsonWS

/-- Value of a hex digit (code points 0-9, a-f, A-F). -/
def hexVal (c : Char) : Option Nat :=
  let n := c.toNat
  if 48 ≤ n ∧ n ≤ 57 then some (n - 48)
  else if 97 ≤ n ∧ n ≤ 102 then some (n - 87)
  else if 65 ≤ n ∧ n ≤ 70 then some (n - 55)
  else none

/-- Parse the body of a JSON string after the opening quote, accumulating
the decoded characters in reverse.  Raw control characters are rejected,
escape sequences are decoded (`Char.ofNat` stands in for UTF-16 code unit
assembly). -/
def pStrAux : List Char → List Char → Option (String × List Char)
  | acc, '"' :: r => some (⟨acc.reverse⟩, r)
  | acc, '\\' :: '"' :: r => pStrAux ('"' :: acc) r
  | acc, '\\' :: '\\' :: r => pStrAux ('\\' :: acc) r
  | acc, '\\' :: '/' :: r => pStrAux ('/' :: acc) r
  | acc, '\\' :: 'b' :: r => pStrAux ('\x08' :: acc) r
  | acc, '\\' :: 'f' :: r => pStrAux ('\x0c' :: acc) r
  | acc, '\\' :: 'n' :: r => pStrAux ('\n' :: acc) r
  | acc, '\\' :: 'r' :: r => pStrAux ('\r' :: acc) r
  | acc, '\\' :: 't' :: r => pStrAux ('\t' :: acc) r
  | acc, '\\' :: 'u' :: h1 :: h2 :: h3 :: h4 :: r2 =>
    match hexVal h1, hexVal h2, hexVal h3, hexVal h4 with
    | some a, some b, some c, some d =>
      pStrAux (Char.ofNat (((a * 16 + b) * 16 + c) * 16 + d) :: acc) r2
    | _, _, _, _ => none
  | _, '\\' :: _ => none
  | acc, c :: r => if c.toNat < 32 then none else pStrAux (c :: acc) r
  | _, [] => none

/-- Integer part of a JSON number: `0` or a nonzero digit followed by
digits. -/
def pInt : List Char → Option (List Char × List Char)
  | [] => none
  | c :: r =>
    if c = '0' then some ([c], r)
    else if '1' ≤ c && c ≤ '9' then
      some (c :: r.takeWhile Char.isDigit, r.dropWhile Char.isDigit)
    else none

/-- Optional fraction part of a JSON number. -/
def pFrac : List Char → Option (List Char × List Char)
  | '.' :: r =>
    if (r.takeWhile Char.isDigit).isEmpty then none
    else some ('.' :: r.takeWhile Char.isDigit, r.dropWhile Char.isDigit)
  | l => some ([], l)

/-- Optional exponent part of a JSON number. -/
def pExp : List Char → Option (List Char × List Char)
  | [] => some ([], [])
  | c :: r =>
    if c = 'e' || c = 'E' then
      let (sgn, r2) :=
        match r with
        | s :: rr => if s = '+' || s = '-' then ([s], rr) else (([] : List Char), r)
        | [] => (([] : List Char), ([] : List Char))
      if (r2.takeWhile Char.isDigit).isEmpty then none
      else some (c :: (sgn ++ r2.takeWhile Char.isDigit), r2.dropWhile Char.isDigit)
    else some ([], c :: r)

/-- Parse a JSON number, returning its lexeme. -/
def pNum (l : List Char) : Option (JsonV × List Char) :=
  let (sgn, l1) := match l with | '-' :: r => (['-'], r) | _ => (([] : List Char), l)
  match pInt l1 with
  | none => none
  | some (ip, r1) =>
    match pFrac r1 with
    | none => none
    | some (fp, r2) =>
      match pExp r2 with
      | none => none
      | some (ep, r3) => some (.jnum ⟨sgn ++ ip ++ fp ++ ep⟩, r3)

mutual

/-- Parse one JSON value (fuelled recursion; the fuel picked by `jsonParse`
is always sufficient for its input). -/
def pVal : Nat → List Char → Option (JsonV × List Char)
  | 0, _ => none
  | Nat.succ fuel, l =>
    match skipWs l with
    | 'n' :: 'u' :: 'l' :: 'l' :: r => some (.jnull, r)
    | 't' :: 'r' :: 'u' :: 'e' :: r => some (.jbool true, r)
    | 'f' :: 'a' :: 'l' :: 's' :: 'e' :: r => some (.jbool false, r)
    | '"' :: r =>
      match pStrAux [] r with
      | some (s, r2) => some (.jstr s, r2)
      | none => none
    | '[' :: r => pArrT fuel r
    | '{' :: r => pObjT fuel r
    | l2 => pNum l2

/-- Parse the elements of a JSON array after the opening bracket. -/
def pArrT : Nat → List Char → Option (JsonV × List Char)
  | 0, _ => none
  | Nat.succ fuel, l =>
    match skipWs l with
    | ']' :: r => some (.jarr [], r)
    | _ =>
      match pVal fuel l with
      | some (v, r) => pArrRest fuel [v] r
      | none => none

/-- Parse `, value` continuations of a JSON array. -/
def pArrRest : Nat → List JsonV → List Char → Option (JsonV × List Char)
  | 0, _, _ => none
  | Nat.succ fuel, acc, l =>
    match skipWs l with
    | ',' :: r =>
      match pVal fuel r with
      | some (v, r2) => pArrRest fuel (acc ++ [v]) r2
      | none => none
    | ']' :: r => some (.jarr acc, r)
    | _ => none

/-- Parse the members of a JSON object after the opening brace. -/
def pObjT : Nat → List Char → Option (JsonV × List Char)
  | 0, _ => none
  | Nat.succ fuel, l =>
    match skipWs l with
    | '}' :: r => some (.jobj [], r)
    | '"' :: r =>
      match pStrAux [] r with
      | some (k, r2) => pMember fuel [] k r2
      | none => none
    | _ => none

/-- Parse `: value` after an object key, then the rest of the object. -/
def pMember : Nat → List (String × JsonV) → String → List Char → Option (JsonV × List Char)
  | 0, _, _, _ => none
  | Nat.succ fuel, acc, k, l =>
    match skipWs l with
    | ':' :: r =>
      match pVal fuel r with
      | some (v, r2) => pObjRest fuel (acc ++ [(k, v)]) r2
      | none => none
    | _ => none

/-- Parse `, "key" : value` continuations of a JSON object. -/
def pObjRest : Nat → List (String × JsonV) → List Char → Option (JsonV × List Char)
  | 0, _, _ => none
  | Nat.succ fuel, acc, l =>
    match skipWs l with
    | ',' :: r =>
      match skipWs r with
      | '"' :: r2 =>
        match pStrAux [] r2 with
        | some (k, r3) => pMember fuel acc k r3
        | none => none
      | _ => none
    | '}' :: r => some (.jobj acc, r)
    | _ => none

end

/-- Model of `JSON.parse`: a strict parse of the whole input (trailing
non-whitespace rejects).  `none` models the thrown `SyntaxError`. -/
def jsonParse (s : String) : Option JsonV :=
  match pVal (2 * s.length + 8) s.data with
  | some (v, r) => if skipWs r = [] then some v else none
  | none => none

/-! ### The spec parser (`parseFields` / `parseOperations` of `plop-cli.js`)

`parseFields` returns whatever dynamic value the JS function returns: on
the JSON branch the parsed value as-is, and on the shorthand branch an
array of `{name, type}` objects. -/

/-- The `{ name: ..., type: ... }` object literal built by the shorthand
branch of `parseFields`. -/
def mkField (name type : String) : JsonV :=
  .jobj [("name", .jstr name), ("type", .jstr type)]

/-- One segment of the shorthand format:
`const [name, type] = f.trim().split(':')` followed by
`{ name: name.trim(), type: type ? type.trim() : 'Text' }`. -/
def parseSegment (seg : List Char) : String × String :=
  let parts := splitOnChar ':' (trimChars seg)
  let name : String := ⟨trimChars (parts.headD [])⟩
  let type : String :=
    match parts[1]? with
    | some t => if t.isEmpty then "Text" else ⟨trimChars t⟩
    | none => "Text"
  (name, type)

/-- The shorthand branch of `parseFields`:
`fieldsInput.split(',').map(...).filter(f => f.name)`. -/
def shorthandFields (s : String) : List (String × String) :=
  ((splitOnChar ',' s.data).map parseSegment).filter (fun f => f.1 ≠ "")

/-- `parseFields` of `plop-cli.js` (identical to the `parseFields` of
`plopfile.js`): empty input gives `[]`; an input starting with `[` is
parsed as JSON, a parse failure degrading to `[]`; anything else is parsed
as `name:Type,...` shorthand. -/
def parseFields (fieldsInput : String) : JsonV :=
  if fieldsInput = "" then .jarr []
  else if jsStartsWith fieldsInput "[" then
    match jsonParse fieldsInput with
    | some v => v
    | none => .jarr []
  else .jarr ((shorthandFields fieldsInput).map (fun f => mkField f.1 f.2))

/-- `parseOperations` of `plop-cli.js`: empty input gives `[]`; otherwise
the JSON parse of the input, a parse failure degrading to `[]`. -/
def parseOperations (opsInput : String) : JsonV :=
  if opsInput = "" then .jarr []
  else
    match jsonParse opsInput with
    | some v => v
    | none => .jarr []

/-! ### Text-case helpers

`pascalCase`/`camelCase` are regex replaces; their effect is embedded as a
character walk: each `/[-_\s]+(.)?/g` match consumes a maximal run of
delimiters plus the following character (if any), which is replaced by
that character uppercased; then `/^(.)/` upper- or lowercases the first
character of the result. -/

/-- The character class `[-_\s]` of the case helpers. -/
def isDelim (c : Char) : Bool := c = '-' || c = '_' || jsWS c

/-- Effect of `text.replace(/[-_\s]+(.)?/g, (_, c) => (c ? c.toUpperCase() : ''))`:
delimiter runs are dropped and the character following each run is
uppercased. -/
def pascalCore : List Char → List Char
  | [] => []
  | [c] => if isDelim c then [] else [c]
  | a :: b :: rest =>
    if isDelim a then
      if isDelim b then pascalCore (b :: rest)
      else b.toUpper :: pascalCore rest
    else a :: pascalCore (b :: rest)

/-- Effect of `.replace(/^(.)/, (c) => c.toUpperCase())`. -/
def upperFirst : List Char → List Char
  | [] => []
  | c :: cs => c.toUpper :: cs

/-- Effect of `.replace(/^(.)/, (c) => c.toLowerCase())`. -/
def lowerFirst : List Char → List Char
  | [] => []
  | c :: cs => c.toLower :: cs

/-- `pascalCase` helper. -/
def pascalCase (text : String) : String := ⟨upperFirst (pascalCore text.data)⟩

/-- `camelCase` helper. -/
def camelCase (text : String) : String := ⟨lowerFirst (pascalCore text.data)⟩

/-- Effect of `.replace(/([a-z])([A-Z])/g, '$1-$2')`: insert `-` at each
lowercase-to-uppercase boundary. -/
def kebabIns : List Char → List Char
  | [] => []
  | [c] => [c]
  | a :: b :: rest =>
    if a.isLower && b.isUpper then a :: '-' :: kebabIns (b :: rest)
    else a :: kebabIns (b :: rest)

/-- The character class `[_\s]` of `kebabCase`'s second replace. -/
def sepWS (c : Char) : Bool := c = '_' || jsWS c

/-- Effect of `.replace(/[_\s]+/g, '-')`: each maximal `[_\s]` run becomes a
single `-`. -/
def kebabSep : List Char → List Char
  | [] => []
  | a :: rest =>
    if sepWS a then
      match rest with
      | [] => ['-']
      | b :: _ => if sepWS b then kebabSep rest else '-' :: kebabSep rest
    else a :: kebabSep rest

/-- `kebabCase` helper. -/
def kebabCase (text : String) : String :=
  ⟨(kebabSep (kebabIns text.data)).map Char.toLower⟩

/-- The heuristic `pluralize` helper of `plop-cli.js`. -/
def pluralize (text : String) : String :=
  if jsEndsWith text "y" then String.mk text.data.dropLast ++ "ies"
  else if jsEndsWith text "s" || jsEndsWith text "x" ||
      jsEndsWith text "ch" || jsEndsWith text "sh" then text ++ "es"
  else text ++ "s"

/-! ### Type-mapping tables and the `encoderField` helper of `plopfile.js` -/

/-- `getAddFn` of `plopfile.js` (the switch is embedded as an if-chain). -/
def getAddFn (type : String) : String :=
  if type = "Text" then "addText"
  else if type = "Nat" then "addNat"
  else if type = "Int" then "addInt"
  else if type = "Float" then "addFloat"
  else if type = "Boolean" then "addBoolean"
  else "addJson"

/-- `getEncoderForType` of `plopfile.js`. -/
def getEncoderForType (type : String) : String :=
  if type = "Text" then "Json.String"
  else if type = "Nat" then "Json.Number"
  else if type = "Int" then "Json.Number"
  else if type = "Float" then "Json.Number"
  else if type = "Boolean" then "Json.Boolean"
  else type ++ ".encoder"

/-- A `{name, type}` field record as consumed by the field helpers. -/
structure FieldSpec where
  name : String
  type : String
  deriving DecidableEq, Repr

/-- `type.slice(1, -1)`: drop the first and last character. -/
def sliceInner (s : String) : String := ⟨(s.data.drop 1).dropLast⟩

/-- The `encoderField` Handlebars helper of `plopfile.js`. -/
def encoderField (field : FieldSpec) : String :=
  if jsStartsWith field.type "Optional " then
    let innerType := jsReplaceFirst field.type "Optional " ""
    let addFn := getAddFn innerType
    "|> (match value." ++ field.name ++ " with\n      Some v -> object." ++ addFn ++
      " \"" ++ field.name ++ "\" v\n      None -> identity)"
  else if jsStartsWith field.type "[" then
    "|> object.addArray \"" ++ field.name ++ "\" (List.map " ++
      getEncoderForType (sliceInner field.type) ++ " value." ++ field.name ++ ")"
  else
    "|> object." ++ getAddFn field.type ++ " \"" ++ field.name ++ "\" value." ++ field.name

/-! ### CLI argument bag, generator registry and argument resolver

A JS argument value reaching the resolver is a string, a boolean, or (for
one generator default) an array of strings.  An object is modelled as its
assignment history: a list of key/value pairs in which a later entry
overrides an earlier one, as both repeated `result.data[key] = v`
assignments and the spread `{...defaults, ...data}` do. -/

/-- A CLI / default argument value. -/
inductive JsVal where
  | str (s : String)
  | bool (b : Bool)
  | strList (l : List String)
  deriving DecidableEq, Repr

/-- An object as assignment history. -/
abbrev JsObj := List (String × JsVal)

/-- Property lookup: the value of the last assignment to `k`, if any. -/
def jsGet : JsObj → String → Option JsVal
  | [], _ => none
  | p :: rest, k =>
    match jsGet rest k with
    | some v => some v
    | none => if p.1 = k then some p.2 else none

/-- The spread `{...d, ...c}`: the assignments of `d` followed by those of
`c`, so `c` wins on common keys. -/
def spreadObj (d c : JsObj) : JsObj := d ++ c

/-- JS falsiness of a possibly-absent argument value (`!finalData[f]`):
`undefined`, `false` and `""` are falsy; every other reachable value
(non-empty string, `true`, any array) is truthy. -/
def jsFalsy : Option JsVal → Bool
  | none => true
  | some (.str s) => s = ""
  | some (.bool b) => !b
  | some (.strList _) => false

/-- The static part of one generator configuration: its `defaults` and
`required` tables.  (The `preProcess`/`outputs` members are modelled
separately by the functions above and `writeOutput` below.) -/
structure GenConfig where
  defaults : JsObj
  required : List String
  deriving DecidableEq, Repr

/-- `config.required.filter(f => !finalData[f])`. -/
def missingArgs (config : GenConfig) (data : JsObj) : List String :=
  config.required.filter (fun f => jsFalsy (jsGet (spreadObj config.defaults data) f))

/-- The single error message printed for missing required arguments. -/
def missingMsg (config : GenConfig) (data : JsObj) : String :=
  "Missing required arguments: " ++ joinJS ", " ((missingArgs config data).map (fun f => "--" ++ f))

/-- The default-merging and required-argument validation step of `main`
(`plop-cli.js` lines 254-262).  `.error` models `console.error` followed by
`process.exit(1)`. -/
def resolveArgs (config : GenConfig) (data : JsObj) : Except String JsObj :=
  let finalData := spreadObj config.defaults data
  let missing := config.required.filter (fun f => jsFalsy (jsGet finalData f))
  if missing.isEmpty then .ok finalData
  else .error (missingMsg config data)

/-- The `generators` registry of `plop-cli.js` (defaults and required
arguments; braces inside the JSON default strings are written with
hex escapes). -/
def generators : List (String × GenConfig) :=
  [ ("unison-web-app",
      ⟨[("htmlLib", .str "tapegram_html_2_0_0")], ["appName"]⟩),
    ("crud-module",
      ⟨[("htmlLib", .str "tapegram_html_2_0_0"), ("includeJson", .bool true),
        ("fields", .str "name:Text")], ["entityName"]⟩),
    ("ability-handler",
      ⟨[("adapterType", .str "Custom"), ("includeFake", .bool true),
        ("operations", .str "[\x7b\"name\":\"doSomething\",\"inputType\":\"Text\",\"outputType\":\"()\"\x7d]")],
       ["abilityName"]⟩),
    ("json-mappers",
      ⟨[("fields", .str "id:Text,name:Text")], ["typeName"]⟩),
    ("page-route",
      ⟨[("httpMethod", .str "GET"), ("hasParams", .bool false),
        ("htmlLib", .str "tapegram_html_2_0_0")], ["pageName"]⟩),
    ("api-client",
      ⟨[("baseUrl", .str "api.example.com"),
        ("operations", .str "[\x7b\"name\":\"getData\",\"httpMethod\":\"GET\",\"endpoint\":\"/data\",\"responseType\":\"Json\"\x7d]")],
       ["clientName"]⟩),
    ("service-tests",
      ⟨[("operations", .strList ["create", "get", "listAll", "update", "delete"])],
       ["serviceName", "entityName"]⟩) ]

/-! ### CLI front end (`parseArgs` of `plop-cli.js`) -/

/-- Outcome of `parseArgs`: the zero-argument help mode (which prints the
listed generator names and exits 0), or a generator name plus data bag. -/
inductive ParseOutcome where
  | help (generatorsListed : List String)
  | run (generator : String) (data : JsObj)
  deriving DecidableEq, Repr

/-- Coercion of the literal strings `"true"`/`"false"` to booleans. -/
def coerceValue (value : String) : JsVal :=
  if value = "true" then .bool true
  else if value = "false" then .bool false
  else .str value

/-- The flag-parsing loop of `parseArgs`: a `--key` token followed by a
truthy (non-empty) token not starting with `--` consumes that token as its
value; otherwise the flag is set to `true` and the next token is left in
place (where, not being a `--` flag itself, it is skipped). -/
def parseFlags : List String → JsObj
  | [] => []
  | [a] =>
    if jsStartsWith a "--" then [(⟨a.data.drop 2⟩, .bool true)] else []
  | a :: value :: rest2 =>
    if jsStartsWith a "--" then
      let key : String := ⟨a.data.drop 2⟩
      if value ≠ "" && !(jsStartsWith value "--") then
        (key, coerceValue value) :: parseFlags rest2
      else (key, .bool true) :: parseFlags (value :: rest2)
    else parseFlags (value :: rest2)

/-- The generator names printed by the zero-argument help mode. -/
def helpGenerators : List String :=
  ["unison-web-app", "crud-module", "ability-handler", "json-mappers",
   "page-route", "api-client", "service-tests"]

/-- `parseArgs` of `plop-cli.js`, on `process.argv.slice(2)`. -/
def parseArgs (args : List String) : ParseOutcome :=
  match args with
  | [] => .help helpGenerators
  | generator :: rest => .run generator (parseFlags rest)

/-! ### Output writer -/

/-- The file system as a partial map from path to content. -/
abbrev FileSystem := String → Option String

/-- The per-output write step of `main` (`plop-cli.js` lines 285-291):
append mode with an existing target appends `'\n' + result`; otherwise the
rendered text is written, replacing any existing content. -/
def writeOutput (fs : FileSystem) (outputPath : String) (appendMode : Bool)
    (result : String) : FileSystem :=
  match appendMode, fs outputPath with
  | true, some old => fun p => if p = outputPath then some (old ++ "\n" ++ result) else fs p
  | true, none => fun p => if p = outputPath then some result else fs p
  | false, _ => fun p => if p = outputPath then some result else fs p

/-! ## Lemmas about the string models -/

theorem data_mk (l : List Char) : (String.mk l).data = l := rfl

theorem mk_data (s : String) : String.mk s.data = s := rfl

theorem jsStartsWith_append (p s : String) : jsStartsWith (p ++ s) p = true := by
  rw [jsStartsWith, String.data_append]
  exact List.isPrefixOf_iff_prefix.mpr (List.prefix_append _ _)

theorem jsStartsWith_bracket_not_optional (s : String) :
    jsStartsWith ("[" ++ s) "Optional " = false := by
  rw [jsStartsWith, Bool.eq_false_iff]
  intro h
  obtain ⟨t, ht⟩ := List.isPrefixOf_iff_prefix.mp h
  rw [String.data_append] at ht
  have e1 : ("Optional " : String).data = 'O' :: "ptional ".data := rfl
  have e2 : ("[" : String).data = ['['] := rfl
  rw [e1, e2] at ht
  simp at ht

theorem replFirst_append (pat repl l : List Char) :
    replFirst pat repl (pat ++ l) = repl ++ l := by
  cases hp : pat with
  | nil =>
    cases l with
    | nil => simp [replFirst]
    | cons c cs => simp [replFirst]
  | cons p ps =>
    have hpre : (p :: ps).isPrefixOf ((p :: ps) ++ l) = true :=
      List.isPrefixOf_iff_prefix.mpr (List.prefix_append _ _)
    rw [List.cons_append, replFirst, ← List.cons_append, hpre, if_pos rfl,
      List.drop_left]

theorem jsReplaceFirst_strip (p s : String) : jsReplaceFirst (p ++ s) p "" = s := by
  apply String.ext
  rw [jsReplaceFirst, data_mk, String.data_append]
  exact replFirst_append _ _ _

theorem sliceInner_append (inner : String) : sliceInner ("[" ++ inner ++ "]") = inner := by
  apply String.ext
  rw [sliceInner, data_mk, String.data_append, String.data_append]
  have e1 : ("[" : String).data = ['['] := rfl
  have e2 : ("]" : String).data = [']'] := rfl
  rw [e1, e2]
  simp [List.dropLast_concat]

/-! ### Trimming lemmas -/

theorem dropWhile_append_cons (p : Char → Bool) (a m : List Char) (x : Char)
    (hx : p x = false) :
    List.dropWhile p (a ++ x :: m) = a.dropWhile p ++ x :: m := by
  rw [List.dropWhile_append]
  split
  · next h =>
    rw [List.isEmpty_iff] at h
    rw [h, List.dropWhile_cons, hx]
    simp
  · rfl

theorem dropWhile_ws_append (p : Char → Bool) (w l : List Char)
    (hw : ∀ x ∈ w, p x = true) :
    List.dropWhile p (w ++ l) = List.dropWhile p l := by
  rw [List.dropWhile_append, List.dropWhile_eq_nil_iff.mpr hw]
  simp

theorem dropWhile_head_not (p : Char → Bool) (l : List Char) (c : Char) (t : List Char)
    (h : l.dropWhile p = c :: t) : p c = false := by
  induction l with
  | nil => simp at h
  | cons a l ih =>
    rw [List.dropWhile_cons] at h
    by_cases ha : p a = true
    · exact ih (by rwa [if_pos ha] at h)
    · rw [if_neg ha] at h
      cases h
      exact Bool.eq_false_iff.mpr ha

theorem dropWhile_idem (p : Char → Bool) (l : List Char) :
    List.dropWhile p (List.dropWhile p l) = List.dropWhile p l := by
  cases h : List.dropWhile p l with
  | nil => rfl
  | cons c t =>
    rw [List.dropWhile_cons, dropWhile_head_not p l c t h]
    simp

theorem trimL_append_cons (a m : List Char) (x : Char) (hx : jsWS x = false) :
    trimL (a ++ x :: m) = trimL a ++ x :: m :=
  dropWhile_append_cons _ _ _ _ hx

theorem trimR_append_cons (a m : List Char) (x : Char) (hx : jsWS x = false) :
    trimR (a ++ x :: m) = a ++ x :: trimR m := by
  rw [trimR, trimR]
  rw [show (a ++ x :: m).reverse = m.reverse ++ x :: a.reverse by simp]
  rw [dropWhile_append_cons _ _ _ _ hx]
  simp

theorem trimR_eq_nil_iff (l : List Char) :
    trimR l = [] ↔ ∀ c ∈ l, jsWS c = true := by
  rw [trimR, List.reverse_eq_nil_iff, List.dropWhile_eq_nil_iff]
  constructor
  · intro h c hc
    exact h c (List.mem_reverse.mpr hc)
  · intro h c hc
    exact h c (List.mem_reverse.mp hc)

theorem trimR_prefix_self (l : List Char) : trimR l <+: l := by
  rw [trimR]
  have h := List.dropWhile_suffix (l := l.reverse) jsWS
  rw [← List.reverse_prefix] at h
  simpa using h

theorem trimR_append_left (w u : List Char) (h : trimR u ≠ []) :
    trimR (w ++ u) = w ++ trimR u := by
  rw [trimR, List.reverse_append, List.dropWhile_append]
  have hne : (List.dropWhile jsWS u.reverse).isEmpty = false := by
    rw [List.isEmpty_eq_false_iff_exists_mem]
    rcases hd : List.dropWhile jsWS u.reverse with _ | ⟨c, t⟩
    · exact absurd (by rw [trimR, hd]; rfl) h
    · exact ⟨c, by simp⟩
  rw [hne]
  simp [trimR]

theorem trimL_trimR_comm (l : List Char) : trimL (trimR l) = trimR (trimL l) := by
  rcases h : trimL l with _ | ⟨c, t⟩
  · have hall : ∀ x ∈ l, jsWS x = true := List.dropWhile_eq_nil_iff.mp h
    have h2 : trimR l = [] := (trimR_eq_nil_iff l).mpr hall
    rw [h2]
    rfl
  · have hc : jsWS c = false := dropWhile_head_not _ _ _ _ h
    have hl : l.takeWhile jsWS ++ (c :: t) = l := by
      rw [← h]; exact List.takeWhile_append_dropWhile _ _
    have hw : ∀ x ∈ l.takeWhile jsWS, jsWS x = true := fun x hx => List.mem_takeWhile_imp hx
    have hne : trimR (c :: t) ≠ [] := by
      intro he
      have := (trimR_eq_nil_iff _).mp he c (by simp)
      rw [hc] at this
      cases this
    have h3 : trimR l = l.takeWhile jsWS ++ trimR (c :: t) := by
      conv_lhs => rw [← hl]
      exact trimR_append_left _ _ hne
    rw [h3, trimL, dropWhile_ws_append _ _ _ hw]
    rcases hht : trimR (c :: t) with _ | ⟨d, u'⟩
    · exact absurd hht hne
    · have hd : d = c := by
        have h4 := trimR_prefix_self (c :: t)
        rw [hht] at h4
        obtain ⟨z, hz⟩ := h4
        rw [List.cons_append] at hz
        exact (List.cons.injEq _ _ _ _ ▸ hz).1
      rw [List.dropWhile_cons, hd, hc]
      simp

theorem trimR_idem (l : List Char) : trimR (trimR l) = trimR l := by
  rw [trimR, trimR]
  simp [dropWhile_idem]

theorem trimChars_trimL (l : List Char) : trimChars (trimL l) = trimChars l := by
  rw [trimChars, trimChars, trimL, trimL, dropWhile_idem]

theorem trimChars_trimR (l : List Char) : trimChars (trimR l) = trimChars l := by
  rw [trimChars, trimL_trimR_comm, trimR_idem, trimChars]

theorem trimChars_eq_nil_iff (l : List Char) :
    trimChars l = [] ↔ ∀ c ∈ l, jsWS c = true := by
  rw [trimChars, trimR_eq_nil_iff]
  constructor
  · intro h c hc
    have hsplit : c ∈ l.takeWhile jsWS ++ l.dropWhile jsWS := by
      rw [List.takeWhile_append_dropWhile]
      exact hc
    rcases List.mem_append.mp hsplit with h1 | h2
    · exact List.mem_takeWhile_imp h1
    · exact h c h2
  · intro h c hc
    exact h c ((List.dropWhile_suffix jsWS).subset hc)

theorem trimR_eq_nil_iff_trimChars (l : List Char) :
    trimR l = [] ↔ trimChars l = [] := by
  rw [trimR_eq_nil_iff, trimChars_eq_nil_iff]

/-! ### Splitting lemmas -/

theorem splitOnChar_ne_nil (sep : Char) (l : List Char) : splitOnChar sep l ≠ [] := by
  cases l with
  | nil => simp [splitOnChar]
  | cons c cs =>
    rw [splitOnChar]
    split
    · simp
    · split <;> simp

theorem splitOnChar_append (sep : Char) (x y : List Char) :
    splitOnChar sep (x ++ sep :: y) = splitOnChar sep x ++ splitOnChar sep y := by
  induction x with
  | nil =>
    rw [List.nil_append]
    rw [show splitOnChar sep (sep :: y) = [] :: splitOnChar sep y by
      rw [splitOnChar]; simp]
    rfl
  | cons c x ih =>
    by_cases hc : c = sep
    · subst hc
      rw [List.cons_append, splitOnChar, if_pos rfl, ih,
        show splitOnChar c (c :: x) = [] :: splitOnChar c x by rw [splitOnChar]; simp]
      rfl
    · rw [List.cons_append, splitOnChar, if_neg hc, ih]
      rcases hx : splitOnChar sep x with _ | ⟨p, ps⟩
      · exact absurd hx (splitOnChar_ne_nil sep x)
      · rw [splitOnChar, if_neg hc, hx]
        rfl

theorem splitOnChar_of_not_mem (sep : Char) (l : List Char) (h : sep ∉ l) :
    splitOnChar sep l = [l] := by
  induction l with
  | nil => rfl
  | cons c cs ih =>
    have hc : c ≠ sep := fun he => h (he ▸ List.mem_cons_self c cs)
    have hcs : sep ∉ cs := fun hm => h (List.mem_cons_of_mem c hm)
    rw [splitOnChar, if_neg hc, ih hcs]

/-! ### Join lemmas -/

theorem mem_joinJS_infix (sep x : String) (l : List String) (h : x ∈ l) :
    x.data <:+: (joinJS sep l).data := by
  induction l with
  | nil => cases h
  | cons y ys ih =>
    cases ys with
    | nil =>
      rw [List.mem_singleton] at h
      subst h
      exact List.infix_refl _
    | cons z zs =>
      have hj : joinJS sep (y :: z :: zs) = y ++ sep ++ joinJS sep (z :: zs) := rfl
      rcases List.mem_cons.mp h with rfl | hx
      · refine ⟨[], (sep ++ joinJS sep (z :: zs)).data, ?_⟩
        rw [hj, String.append_assoc, String.data_append]
        simp
      · have hi := ih hx
        have hsuf : (joinJS sep (z :: zs)).data <:+ (joinJS sep (y :: z :: zs)).data := by
          rw [hj, String.data_append]
          exact List.suffix_append _ _
        exact hi.trans hsuf.isInfix

/-! ### Object lookup lemmas -/

theorem jsGet_append (d c : JsObj) (k : String) :
    jsGet (d ++ c) k = (jsGet c k).or (jsGet d k) := by
  induction d with
  | nil => simp [jsGet]
  | cons p d ih =>
    rw [List.cons_append, jsGet, ih]
    cases hc : jsGet c k with
    | some v => rfl
    | none =>
      rw [Option.none_or, jsGet]
      cases hd : jsGet d k <;> simp

theorem jsGet_spread (d c : JsObj) (k : String) :
    jsGet (spreadObj d c) k = (jsGet c k).or (jsGet d k) :=
  jsGet_append d c k

/-! ### Segment parsing lemmas -/

theorem trimChars_subset (l : List Char) : ∀ c ∈ trimChars l, c ∈ l := fun _c hc =>
  (List.dropWhile_suffix jsWS).subset ((trimR_prefix_self (trimL l)).subset hc)

theorem trimChars_idem (l : List Char) : trimChars (trimChars l) = trimChars l := by
  have h : trimChars (trimR (trimL l)) = trimR (trimL l) := by
    rw [trimChars_trimR, trimChars_trimL]
    rfl
  exact h

theorem parseSegment_no_colon (seg : List Char) (h : ':' ∉ seg) :
    parseSegment seg = (⟨trimChars seg⟩, "Text") := by
  have hnc : ':' ∉ trimChars seg := fun hm => h (trimChars_subset seg ':' hm)
  simp only [parseSegment, splitOnChar_of_not_mem _ _ hnc]
  simp [trimChars_idem]

theorem parseSegment_one_colon (a b : List Char) (ha : ':' ∉ a) (hb : ':' ∉ b) :
    parseSegment (a ++ ':' :: b) =
      (⟨trimChars a⟩, if trimChars b = [] then "Text" else ⟨trimChars b⟩) := by
  have hws : jsWS ':' = false := by decide
  have htrim : trimChars (a ++ ':' :: b) = trimL a ++ ':' :: trimR b := by
    rw [trimChars, trimL_append_cons _ _ _ hws, trimR_append_cons _ _ _ hws]
  have hna : ':' ∉ trimL a := fun hm => ha ((List.dropWhile_suffix jsWS).subset hm)
  have hnb : ':' ∉ trimR b := fun hm => hb ((trimR_prefix_self b).subset hm)
  simp only [parseSegment, htrim, splitOnChar_append, splitOnChar_of_not_mem _ _ hna,
    splitOnChar_of_not_mem _ _ hnb, List.singleton_append, List.headD_cons,
    List.getElem?_cons_succ, List.getElem?_cons_zero]
  rw [trimChars_trimL]
  simp only [Prod.mk.injEq, true_and]
  by_cases h0 : trimR b = []
  · rw [if_pos (by rw [h0]; rfl), if_pos ((trimR_eq_nil_iff_trimChars b).mp h0)]
  · rw [if_neg (by simpa [List.isEmpty_iff] using h0),
      if_neg (fun hT => h0 ((trimR_eq_nil_iff_trimChars b).mpr hT))]
    exact congrArg String.mk (trimChars_trimR b)

theorem parseSegment_two_colons (a b c : List Char) (ha : ':' ∉ a) (hb : ':' ∉ b)
    (hc : ':' ∉ c) :
    parseSegment (a ++ ':' :: (b ++ ':' :: c)) =
      (⟨trimChars a⟩, if b = [] then "Text" else ⟨trimChars b⟩) := by
  have hws : jsWS ':' = false := by decide
  have htrim : trimChars (a ++ ':' :: (b ++ ':' :: c)) =
      trimL a ++ ':' :: (b ++ ':' :: trimR c) := by
    rw [trimChars, trimL_append_cons _ _ _ hws, trimR_append_cons _ _ _ hws,
      trimR_append_cons _ _ _ hws]
  have hna : ':' ∉ trimL a := fun hm => ha ((List.dropWhile_suffix jsWS).subset hm)
  have hnc : ':' ∉ trimR c := fun hm => hc ((trimR_prefix_self c).subset hm)
  simp only [parseSegment, htrim, splitOnChar_append, splitOnChar_of_not_mem _ _ hna,
    splitOnChar_of_not_mem _ _ hb, splitOnChar_of_not_mem _ _ hnc,
    List.singleton_append, List.cons_append, List.nil_append, List.headD_cons,
    List.getElem?_cons_succ, List.getElem?_cons_zero]
  rw [trimChars_trimL]
  simp only [Prod.mk.injEq, true_and]
  by_cases h0 : b = []
  · rw [if_pos (by rw [h0]; rfl), if_pos h0]
  · rw [if_neg (by simpa [List.isEmpty_iff] using h0), if_neg h0]

theorem shorthandFields_append (s₁ s₂ : String) :
    shorthandFields (s₁ ++ "," ++ s₂) = shorthandFields s₁ ++ shorthandFields s₂ := by
  rw [shorthandFields, shorthandFields, shorthandFields, String.data_append,
    String.data_append, show ("," : String).data = [','] from rfl, List.append_assoc,
    List.singleton_append, splitOnChar_append, List.map_append, List.filter_append]

theorem mem_shorthandFields_name_ne (s : String) (f : String × String)
    (h : f ∈ shorthandFields s) : f.1 ≠ "" := by
  have h2 := (List.mem_filter.mp h).2
  exact of_decide_eq_true h2

/-! ### pascalCore lemmas -/

theorem pascalCore_cons (a : Char) (l : List Char) (h : isDelim a = false) :
    pascalCore (a :: l) = a :: pascalCore l := by
  cases l with
  | nil => simp [pascalCore, h]
  | cons b m => simp [pascalCore, h]

theorem pascalCore_delim_delim (d b : Char) (l : List Char) (hd : isDelim d = true)
    (hb : isDelim b = true) : pascalCore (d :: b :: l) = pascalCore (b :: l) := by
  simp [pascalCore, hd, hb]

theorem pascalCore_delim_char (d b : Char) (l : List Char) (hd : isDelim d = true)
    (hb : isDelim b = false) : pascalCore (d :: b :: l) = b.toUpper :: pascalCore l := by
  simp [pascalCore, hd, hb]

theorem pascalCore_id (l : List Char) : (∀ c ∈ l, isDelim c = false) → pascalCore l = l := by
  induction l with
  | nil => intro _; rfl
  | cons c cs ih =>
    intro h
    rw [pascalCore_cons _ _ (h c (List.mem_cons_self c cs)),
      ih (fun x hx => h x (List.mem_cons_of_mem _ hx))]

theorem pascalCore_delims (ds ys : List Char) (c : Char) (hc : isDelim c = false) :
    (∀ d ∈ ds, isDelim d = true) → ds ≠ [] →
    pascalCore (ds ++ c :: ys) = c.toUpper :: pascalCore ys := by
  induction ds with
  | nil => intro _ hds; exact absurd rfl hds
  | cons d ds' ih =>
    intro hd _
    cases ds' with
    | nil =>
      rw [List.singleton_append]
      exact pascalCore_delim_char d c ys (hd d (by simp)) hc
    | cons d₂ ds'' =>
      rw [List.cons_append, List.cons_append,
        pascalCore_delim_delim d d₂ _ (hd d (by simp)) (hd d₂ (by simp)),
        ← List.cons_append]
      exact ih (fun x hx => hd x (List.mem_cons_of_mem _ hx)) (by simp)

theorem pascalCore_run (xs ds ys : List Char) (c : Char) (hds : ds ≠ [])
    (hd : ∀ d ∈ ds, isDelim d = true) (hc : isDelim c = false) :
    (∀ x ∈ xs, isDelim x = false) →
    pascalCore (xs ++ ds ++ c :: ys) = xs ++ c.toUpper :: pascalCore ys := by
  induction xs with
  | nil =>
    intro _
    rw [List.nil_append, List.nil_append]
    exact pascalCore_delims ds ys c hc hd hds
  | cons x xs' ih =>
    intro hxs
    rw [List.cons_append, List.cons_append,
      pascalCore_cons x _ (hxs x (List.mem_cons_self x xs')),
      ih (fun y hy => hxs y (List.mem_cons_of_mem _ hy)), List.cons_append]

/-! ### Resolver lemmas -/

theorem resolveArgs_error_of_missing (config : GenConfig) (data : JsObj)
    (h : missingArgs config data ≠ []) :
    resolveArgs config data = .error (missingMsg config data) := by
  have hE : ¬ (missingArgs config data).isEmpty = true :=
    fun ht => h (List.isEmpty_iff.mp ht)
  show (if (missingArgs config data).isEmpty = true then
      (Except.ok (spreadObj config.defaults data) : Except String JsObj)
    else .error (missingMsg config data)) = .error (missingMsg config data)
  rw [if_neg hE]

theorem mem_missing_infix (config : GenConfig) (data : JsObj) (r : String)
    (h : r ∈ missingArgs config data) :
    ("--" ++ r).data <:+: (missingMsg config data).data := by
  have hm : ("--" ++ r) ∈ (missingArgs config data).map (fun f => "--" ++ f) :=
    List.mem_map_of_mem _ h
  have hi := mem_joinJS_infix ", " _ _ hm
  rw [missingMsg, String.data_append]
  exact hi.trans (List.suffix_append _ _).isInfix

theorem required_falsy_missing (config : GenConfig) (data : JsObj) (r : String)
    (hr : r ∈ config.required)
    (hf : jsFalsy (jsGet (spreadObj config.defaults data) r) = true) :
    r ∈ missingArgs config data :=
  List.mem_filter.mpr ⟨hr, hf⟩

theorem missing_ne_nil_of_mem (config : GenConfig) (data : JsObj) (r : String)
    (h : r ∈ missingArgs config data) : missingArgs config data ≠ [] := by
  intro he
  rw [he] at h
  cases h

/-! ## Claim theorems -/

/-- Claim C4: for every output instruction, if `appendMode` is true and the
target path exists the writer appends the rendered text preceded by a single
newline separator; otherwise (create mode, or append mode with an absent
target) it writes the rendered text, overwriting any existing content; hence
appending to a non-existent path yields a file containing exactly the
rendered content with no leading separator, and two sequential appends to
the same path yield the first render, a newline, then the second render. -/
theorem c4_output_writer (fs : FileSystem) (path r₁ r₂ : String) :
    (fs path = none → writeOutput fs path true r₁ path = some r₁) ∧
    (fs path = none →
      writeOutput (writeOutput fs path true r₁) path true r₂ path =
        some (r₁ ++ "\n" ++ r₂)) ∧
    (∀ old, fs path = some old →
      writeOutput fs path true r₁ path = some (old ++ "\n" ++ r₁)) ∧
    (writeOutput fs path false r₁ path = some r₁) := by
  refine ⟨?_, ?_, ?_, ?_⟩
  · intro h
    simp [writeOutput, h]
  · intro h
    simp [writeOutput, h]
  · intro old h
    simp [writeOutput, h]
  · cases h : fs path <;> simp [writeOutput, h]

/-- Witness for C4 at a concrete empty file system, path and renders. -/
theorem c4_output_writer_witness :
    ((fun _ => none : FileSystem) "a.u" = none) ∧
    writeOutput (fun _ => none) "a.u" true "one" "a.u" = some "one" ∧
    writeOutput (writeOutput (fun _ => none) "a.u" true "one") "a.u" true "two" "a.u" =
      some ("one" ++ "\n" ++ "two") ∧
    writeOutput (fun _ => none) "a.u" false "one" "a.u" = some "one" :=
  ⟨rfl, (c4_output_writer (fun _ => none) "a.u" "one" "two").1 rfl,
    (c4_output_writer (fun _ => none) "a.u" "one" "two").2.1 rfl,
    (c4_output_writer (fun _ => none) "a.u" "one" "two").2.2.2⟩

/-- Claim C5 counterexample: `parseFieldSpecs("bad[[[json")` does not return
`[]`; since the input does not start with `[` it takes the shorthand path
and yields one field named `bad[[[json` of type `Text`. -/
theorem c5_counterexample :
    parseFields "bad[[[json" = .jarr [mkField "bad[[[json" "Text"] ∧
    parseFields "bad[[[json" ≠ .jarr [] := by
  have h1 : parseFields "bad[[[json" = .jarr [mkField "bad[[[json" "Text"] := by rfl
  refine ⟨h1, ?_⟩
  rw [h1]
  simp [mkField]

/-- Claim C5, amended: `parseFieldSpecs("bad[[[json")` does not throw; the
input does not start with `[`, so the shorthand path applies and the result
is the single field `{name: "bad[[[json", type: "Text"}` rather than `[]`. -/
theorem c5_shorthand_tolerates_malformed :
    parseFields "bad[[[json" = .jarr [mkField "bad[[[json" "Text"] ∧
    jsStartsWith "bad[[[json" "[" = false := by
  exact ⟨by rfl, by decide⟩

/-- Claim C8: `pluralize` applies the heuristic suffix rules — a word ending
in `y` has the `y` replaced by `ies`; otherwise a word ending in `s`, `x`,
`ch` or `sh` gets `es` appended; otherwise `s` is appended — and the three
examples. -/
theorem c8_pluralize :
    (∀ s : String, jsEndsWith s "y" = true →
      pluralize s = String.mk s.data.dropLast ++ "ies") ∧
    (∀ s : String, jsEndsWith s "y" = false →
      (jsEndsWith s "s" || jsEndsWith s "x" || jsEndsWith s "ch" || jsEndsWith s "sh") = true →
      pluralize s = s ++ "es") ∧
    (∀ s : String, jsEndsWith s "y" = false →
      (jsEndsWith s "s" || jsEndsWith s "x" || jsEndsWith s "ch" || jsEndsWith s "sh") = false →
      pluralize s = s ++ "s") ∧
    pluralize "task" = "tasks" ∧ pluralize "category" = "categories" ∧
    pluralize "box" = "boxes" := by
  refine ⟨?_, ?_, ?_, by decide, by decide, by decide⟩
  · intro s h
    rw [pluralize, if_pos h]
  · intro s h1 h2
    rw [pluralize, if_neg (by rw [h1]; exact Bool.false_ne_true), if_pos h2]
  · intro s h1 h2
    rw [pluralize, if_neg (by rw [h1]; exact Bool.false_ne_true),
      if_neg (by rw [h2]; exact Bool.false_ne_true)]

/-- Witness for C8 at the concrete words `category`, `dish` and `task`. -/
theorem c8_pluralize_witness :
    (jsEndsWith "category" "y" = true ∧
      pluralize "category" = String.mk "category".data.dropLast ++ "ies") ∧
    (jsEndsWith "dish" "y" = false ∧
      (jsEndsWith "dish" "s" || jsEndsWith "dish" "x" || jsEndsWith "dish" "ch" ||
        jsEndsWith "dish" "sh") = true ∧
      pluralize "dish" = "dish" ++ "es") ∧
    (jsEndsWith "task" "y" = false ∧
      (jsEndsWith "task" "s" || jsEndsWith "task" "x" || jsEndsWith "task" "ch" ||
        jsEndsWith "task" "sh") = false ∧
      pluralize "task" = "task" ++ "s") :=
  ⟨⟨by decide, c8_pluralize.1 "category" (by decide)⟩,
    ⟨by decide, by decide, c8_pluralize.2.1 "dish" (by decide) (by decide)⟩,
    ⟨by decide, by decide, c8_pluralize.2.2.1 "task" (by decide) (by decide)⟩⟩

/-! ### encoderField helper lemmas -/

theorem encoderField_plain (n t : String) (h1 : jsStartsWith t "Optional " = false)
    (h2 : jsStartsWith t "[" = false) :
    encoderField ⟨n, t⟩ =
      "|> object." ++ getAddFn t ++ " \"" ++ n ++ "\" value." ++ n := by
  simp only [encoderField]
  rw [if_neg (by rw [h1]; exact Bool.false_ne_true),
    if_neg (by rw [h2]; exact Bool.false_ne_true)]

theorem encoderField_optional (n inner : String) :
    encoderField ⟨n, "Optional " ++ inner⟩ =
      "|> (match value." ++ n ++ " with\n      Some v -> object." ++ getAddFn inner ++
        " \"" ++ n ++ "\" v\n      None -> identity)" := by
  simp only [encoderField]
  rw [if_pos (jsStartsWith_append "Optional " inner), jsReplaceFirst_strip]

theorem encoderField_array (n inner : String) :
    encoderField ⟨n, "[" ++ inner ++ "]"⟩ =
      "|> object.addArray \"" ++ n ++ "\" (List.map " ++ getEncoderForType inner ++
        " value." ++ n ++ ")" := by
  simp only [encoderField]
  have hOpt : jsStartsWith ("[" ++ inner ++ "]") "Optional " = false := by
    rw [String.append_assoc]
    exact jsStartsWith_bracket_not_optional (inner ++ "]")
  have hBr : jsStartsWith ("[" ++ inner ++ "]") "[" = true := by
    rw [String.append_assoc]
    exact jsStartsWith_append "[" (inner ++ "]")
  rw [if_neg (by rw [hOpt]; exact Bool.false_ne_true), if_pos hBr, sliceInner_append]

/-- Claim C6: `encoderField` emits `|> object.<addFn> "<name>" value.<name>`
with `addText`/`addNat`/`addInt`/`addFloat`/`addBoolean` for the primitive
type names and `addJson` for any other plain type name; an `Optional `
prefix is stripped, the inner type resolved through the add-function table,
and the snippet wrapped in the optional-conditional form; a bracketed
`[Inner]` type is unwrapped, `Inner` resolved through `getEncoderForType`
(`Json.String`/`Json.Number`/`Json.Boolean` for the primitives and
`<Inner>.encoder` otherwise), and the snippet wrapped in the array-map
form. -/
theorem c6_encoder_field (n : String) :
    (encoderField ⟨n, "Text"⟩ = "|> object.addText \"" ++ n ++ "\" value." ++ n) ∧
    (encoderField ⟨n, "Nat"⟩ = "|> object.addNat \"" ++ n ++ "\" value." ++ n) ∧
    (encoderField ⟨n, "Int"⟩ = "|> object.addInt \"" ++ n ++ "\" value." ++ n) ∧
    (encoderField ⟨n, "Float"⟩ = "|> object.addFloat \"" ++ n ++ "\" value." ++ n) ∧
    (encoderField ⟨n, "Boolean"⟩ = "|> object.addBoolean \"" ++ n ++ "\" value." ++ n) ∧
    (∀ t : String, jsStartsWith t "Optional " = false → jsStartsWith t "[" = false →
      t ≠ "Text" → t ≠ "Nat" → t ≠ "Int" → t ≠ "Float" → t ≠ "Boolean" →
      encoderField ⟨n, t⟩ = "|> object.addJson \"" ++ n ++ "\" value." ++ n) ∧
    (∀ inner : String, encoderField ⟨n, "Optional " ++ inner⟩ =
      "|> (match value." ++ n ++ " with\n      Some v -> object." ++ getAddFn inner ++
        " \"" ++ n ++ "\" v\n      None -> identity)") ∧
    (∀ inner : String, encoderField ⟨n, "[" ++ inner ++ "]"⟩ =
      "|> object.addArray \"" ++ n ++ "\" (List.map " ++ getEncoderForType inner ++
        " value." ++ n ++ ")") ∧
    (getAddFn "Text" = "addText" ∧ getAddFn "Nat" = "addNat" ∧ getAddFn "Int" = "addInt" ∧
      getAddFn "Float" = "addFloat" ∧ getAddFn "Boolean" = "addBoolean") ∧
    (getEncoderForType "Text" = "Json.String" ∧ getEncoderForType "Nat" = "Json.Number" ∧
      getEncoderForType "Int" = "Json.Number" ∧ getEncoderForType "Float" = "Json.Number" ∧
      getEncoderForType "Boolean" = "Json.Boolean") ∧
    (∀ t : String, t ≠ "Text" → t ≠ "Nat" → t ≠ "Int" → t ≠ "Float" → t ≠ "Boolean" →
      getEncoderForType t = t ++ ".encoder") := by
  refine ⟨?_, ?_, ?_, ?_, ?_, ?_, encoderField_optional n, encoderField_array n,
    ⟨by decide, by decide, by decide, by decide, by decide⟩,
    ⟨by decide, by decide, by decide, by decide, by decide⟩, ?_⟩
  · rw [encoderField_plain n "Text" (by decide) (by decide),
      show getAddFn "Text" = "addText" from by decide,
      show ("|> object." ++ "addText" ++ " \"" : String) = "|> object.addText \"" from by decide]
  · rw [encoderField_plain n "Nat" (by decide) (by decide),
      show getAddFn "Nat" = "addNat" from by decide,
      show ("|> object." ++ "addNat" ++ " \"" : String) = "|> object.addNat \"" from by decide]
  · rw [encoderField_plain n "Int" (by decide) (by decide),
      show getAddFn "Int" = "addInt" from by decide,
      show ("|> object." ++ "addInt" ++ " \"" : String) = "|> object.addInt \"" from by decide]
  · rw [encoderField_plain n "Float" (by decide) (by decide),
      show getAddFn "Float" = "addFloat" from by decide,
      show ("|> object." ++ "addFloat" ++ " \"" : String) = "|> object.addFloat \"" from by decide]
  · rw [encoderField_plain n "Boolean" (by decide) (by decide),
      show getAddFn "Boolean" = "addBoolean" from by decide,
      show ("|> object." ++ "addBoolean" ++ " \"" : String) = "|> object.addBoolean \"" from by
        decide]
  · intro t h1 h2 h3 h4 h5 h6 h7
    have hAdd : getAddFn t = "addJson" := by
      rw [getAddFn, if_neg h3, if_neg h4, if_neg h5, if_neg h6, if_neg h7]
    rw [encoderField_plain n t h1 h2, hAdd,
      show ("|> object." ++ "addJson" ++ " \"" : String) = "|> object.addJson \"" from by decide]
  · intro t h3 h4 h5 h6 h7
    rw [getEncoderForType, if_neg h3, if_neg h4, if_neg h5, if_neg h6, if_neg h7]

/-- Witness for C6 at the field name `who`, custom type `User`, optional
inner type `Nat` and array inner type `Text`. -/
theorem c6_encoder_field_witness :
    (jsStartsWith "User" "Optional " = false ∧ jsStartsWith "User" "[" = false ∧
      encoderField ⟨"who", "User"⟩ = "|> object.addJson \"" ++ "who" ++ "\" value." ++ "who") ∧
    (encoderField ⟨"who", "Optional " ++ "Nat"⟩ =
      "|> (match value." ++ "who" ++ " with\n      Some v -> object." ++ getAddFn "Nat" ++
        " \"" ++ "who" ++ "\" v\n      None -> identity)") ∧
    (encoderField ⟨"who", "[" ++ "Text" ++ "]"⟩ =
      "|> object.addArray \"" ++ "who" ++ "\" (List.map " ++ getEncoderForType "Text" ++
        " value." ++ "who" ++ ")") ∧
    getEncoderForType "User" = "User" ++ ".encoder" :=
  ⟨⟨by decide, by decide,
      (c6_encoder_field "who").2.2.2.2.2.1 "User" (by decide) (by decide) (by decide)
        (by decide) (by decide) (by decide) (by decide)⟩,
    (c6_encoder_field "who").2.2.2.2.2.2.1 "Nat",
    (c6_encoder_field "who").2.2.2.2.2.2.2.1 "Text",
    (c6_encoder_field "who").2.2.2.2.2.2.2.2.2.2 "User" (by decide) (by decide) (by decide)
      (by decide) (by decide)⟩

/-- Claim C2 counterexample: the parser tests the raw input for `[`, not the
trimmed form.  The input `" [x"` has a trimmed form starting with `[` and is
not valid JSON, yet `parseFieldSpecs` returns a non-empty shorthand list
instead of `[]`. -/
theorem c2_counterexample :
    parseFields " [x" = .jarr [mkField "[x" "Text"] ∧
    jsStartsWith (jsTrim " [x") "[" = true ∧
    jsonParse " [x" = none ∧
    JsonV.jarr [mkField "[x" "Text"] ≠ .jarr [] := by
  refine ⟨by rfl, by decide, by rfl, ?_⟩
  simp [mkField]

/-- Claim C2, amended: for every field input string that itself starts with
`[` (the code does not trim before the check) and is not valid JSON,
`parseFieldSpecs` does not throw and returns `[]`; and for every operations
input string that is not valid JSON, `parseOperationSpecs` does not throw
and returns `[]`. -/
theorem c2_fail_soft :
    (∀ s : String, jsStartsWith s "[" = true → jsonParse s = none →
      parseFields s = .jarr []) ∧
    (∀ s : String, jsonParse s = none → parseOperations s = .jarr []) := by
  constructor
  · intro s h1 h2
    have hs : s ≠ "" := by
      intro he
      rw [he] at h1
      exact absurd h1 (by decide)
    rw [parseFields, if_neg hs, if_pos h1, h2]
  · intro s h
    by_cases hs : s = ""
    · rw [hs]
      rfl
    · rw [parseOperations, if_neg hs, h]

/-- Witness for C2 at the concrete invalid inputs `"[bad"` and `"not json"`. -/
theorem c2_fail_soft_witness :
    (jsStartsWith "[bad" "[" = true ∧ jsonParse "[bad" = none ∧
      parseFields "[bad" = .jarr []) ∧
    (jsonParse "not json" = none ∧ parseOperations "not json" = .jarr []) :=
  ⟨⟨by decide, by rfl, c2_fail_soft.1 "[bad" (by decide) (by rfl)⟩,
    ⟨by rfl, c2_fail_soft.2 "not json" (by rfl)⟩⟩

/-- Claim C3: the resolver merges defaults then CLI values (CLI wins), and
whenever two required arguments are both falsy or absent in the merged
context, it fails with the single missing-arguments error message (a
nonzero exit), and that message names both of their flags — hence every
missing flag, not just the first encountered. -/
theorem c3_resolver_reports_all_missing :
    (∀ (d c : JsObj) (k : String),
      jsGet (spreadObj d c) k = (jsGet c k).or (jsGet d k)) ∧
    (∀ (config : GenConfig) (data : JsObj) (r₁ r₂ : String),
      r₁ ∈ config.required → r₂ ∈ config.required →
      jsFalsy (jsGet (spreadObj config.defaults data) r₁) = true →
      jsFalsy (jsGet (spreadObj config.defaults data) r₂) = true →
      resolveArgs config data = .error (missingMsg config data) ∧
      ("--" ++ r₁).data <:+: (missingMsg config data).data ∧
      ("--" ++ r₂).data <:+: (missingMsg config data).data) := by
  refine ⟨jsGet_spread, ?_⟩
  intro config data r₁ r₂ h1 h2 hf1 hf2
  have hm1 : r₁ ∈ missingArgs config data := required_falsy_missing config data r₁ h1 hf1
  have hm2 : r₂ ∈ missingArgs config data := required_falsy_missing config data r₂ h2 hf2
  exact ⟨resolveArgs_error_of_missing config data (missing_ne_nil_of_mem config data r₁ hm1),
    mem_missing_infix config data r₁ hm1, mem_missing_infix config data r₂ hm2⟩

/-- Witness for C3: a generator requiring `entityName` and a second argument,
invoked with an empty argument bag. -/
theorem c3_resolver_witness :
    ("entityName" ∈ (GenConfig.mk [] ["entityName", "secondArg"]).required) ∧
    ("secondArg" ∈ (GenConfig.mk [] ["entityName", "secondArg"]).required) ∧
    (jsFalsy (jsGet (spreadObj (GenConfig.mk [] ["entityName", "secondArg"]).defaults [])
      "entityName") = true) ∧
    (resolveArgs (GenConfig.mk [] ["entityName", "secondArg"]) [] =
      .error (missingMsg (GenConfig.mk [] ["entityName", "secondArg"]) []) ∧
      ("--" ++ "entityName").data <:+:
        (missingMsg (GenConfig.mk [] ["entityName", "secondArg"]) []).data ∧
      ("--" ++ "secondArg").data <:+:
        (missingMsg (GenConfig.mk [] ["entityName", "secondArg"]) []).data) :=
  ⟨by decide, by decide, by decide,
    c3_resolver_reports_all_missing.2 (GenConfig.mk [] ["entityName", "secondArg"]) []
      "entityName" "secondArg" (by decide) (by decide) (by decide) (by decide)⟩

/-! ### parseFlags helper lemmas -/

theorem dashKey (k : String) : (⟨("--" ++ k).data.drop 2⟩ : String) = k := by
  rw [String.data_append]
  rfl

theorem parseFlags_flag_value (k v : String) (rest : List String) (hv : v ≠ "")
    (hv2 : jsStartsWith v "--" = false) :
    parseFlags (("--" ++ k) :: v :: rest) = (k, coerceValue v) :: parseFlags rest := by
  have hcond : (v ≠ "" && !jsStartsWith v "--") = true := by
    simp [hv, hv2]
  simp only [parseFlags]
  rw [if_pos (jsStartsWith_append "--" k), if_pos hcond, dashKey]

theorem parseFlags_flag_novalue (k v : String) (rest : List String)
    (h : v = "" ∨ jsStartsWith v "--" = true) :
    parseFlags (("--" ++ k) :: v :: rest) = (k, .bool true) :: parseFlags (v :: rest) := by
  have hcond : ¬ (v ≠ "" && !jsStartsWith v "--") = true := by
    rcases h with h | h <;> simp [h]
  simp only [parseFlags]
  rw [if_pos (jsStartsWith_append "--" k), if_neg hcond, dashKey]

theorem parseFlags_flag_last (k : String) :
    parseFlags [("--" ++ k)] = [(k, .bool true)] := by
  simp only [parseFlags]
  rw [if_pos (jsStartsWith_append "--" k), dashKey]

/-- Claim C10: a required argument explicitly supplied as the literal string
`"false"` is coerced by the CLI parser to the boolean `false`, which the
resolver then treats as missing: it fails with the missing-arguments error
naming that flag, despite the caller having provided it. -/
theorem c10_false_required_arg :
    (∀ (k : String) (rest : List String),
      parseFlags (("--" ++ k) :: "false" :: rest) =
        (k, .bool false) :: parseFlags rest) ∧
    (∀ (config : GenConfig) (data : JsObj) (r : String),
      r ∈ config.required → jsGet data r = some (.bool false) →
      resolveArgs config data = .error (missingMsg config data) ∧
      ("--" ++ r).data <:+: (missingMsg config data).data) := by
  constructor
  · intro k rest
    rw [parseFlags_flag_value k "false" rest (by decide) (by decide)]
    rfl
  · intro config data r hr hf
    have hfalsy : jsFalsy (jsGet (spreadObj config.defaults data) r) = true := by
      rw [jsGet_spread, hf]
      rfl
    have hm : r ∈ missingArgs config data := required_falsy_missing config data r hr hfalsy
    exact ⟨resolveArgs_error_of_missing config data (missing_ne_nil_of_mem config data r hm),
      mem_missing_infix config data r hm⟩

/-- Witness for C10: the `crud-module` generator invoked with
`--entityName false`. -/
theorem c10_false_required_arg_witness :
    (parseFlags (("--" ++ "entityName") :: "false" :: []) =
      ("entityName", .bool false) :: parseFlags []) ∧
    ("entityName" ∈
      (GenConfig.mk [("htmlLib", .str "tapegram_html_2_0_0"), ("includeJson", .bool true),
        ("fields", .str "name:Text")] ["entityName"]).required) ∧
    (jsGet [("entityName", JsVal.bool false)] "entityName" = some (.bool false)) ∧
    (resolveArgs
        (GenConfig.mk [("htmlLib", .str "tapegram_html_2_0_0"), ("includeJson", .bool true),
          ("fields", .str "name:Text")] ["entityName"])
        [("entityName", JsVal.bool false)] =
      .error (missingMsg
        (GenConfig.mk [("htmlLib", .str "tapegram_html_2_0_0"), ("includeJson", .bool true),
          ("fields", .str "name:Text")] ["entityName"])
        [("entityName", JsVal.bool false)]) ∧
      ("--" ++ "entityName").data <:+:
        (missingMsg
          (GenConfig.mk [("htmlLib", .str "tapegram_html_2_0_0"), ("includeJson", .bool true),
            ("fields", .str "name:Text")] ["entityName"])
          [("entityName", JsVal.bool false)]).data) :=
  ⟨c10_false_required_arg.1 "entityName" [], by decide, by decide,
    c10_false_required_arg.2
      (GenConfig.mk [("htmlLib", .str "tapegram_html_2_0_0"), ("includeJson", .bool true),
        ("fields", .str "name:Text")] ["entityName"])
      [("entityName", JsVal.bool false)] "entityName" (by decide) (by decide)⟩

/-- Claim C9 counterexample: a flag followed by an empty-string token does
not consume it — the empty token is falsy in JS, so the flag is bound to
boolean `true` rather than to the empty-string value. -/
theorem c9_counterexample :
    parseArgs ["gen", "--k", ""] = .run "gen" [("k", .bool true)] ∧
    parseArgs ["gen", "--k", ""] ≠ .run "gen" [("k", .str "")] := by
  decide

/-- Claim C9, amended: the CLI parser takes the first token as the generator
name; a `--key` flag immediately followed by a non-empty value token not
itself starting with `--` consumes that value, with the literal strings
`"true"`/`"false"` coerced to booleans; a flag followed by no token, an
empty token, or a `--` token is bound to boolean `true` (and an empty
following token is left unconsumed); with zero arguments the parser prints
the list of known generators — exactly the registry's names — and exits
with status 0. -/
theorem c9_cli_front_end :
    (parseArgs [] = .help helpGenerators) ∧
    (helpGenerators = generators.map Prod.fst) ∧
    (∀ (g : String) (rest : List String), parseArgs (g :: rest) = .run g (parseFlags rest)) ∧
    (∀ (k v : String) (rest : List String), v ≠ "" → jsStartsWith v "--" = false →
      parseFlags (("--" ++ k) :: v :: rest) = (k, coerceValue v) :: parseFlags rest) ∧
    (coerceValue "true" = .bool true) ∧
    (coerceValue "false" = .bool false) ∧
    (∀ v : String, v ≠ "true" → v ≠ "false" → coerceValue v = .str v) ∧
    (∀ (k v : String) (rest : List String), v = "" ∨ jsStartsWith v "--" = true →
      parseFlags (("--" ++ k) :: v :: rest) = (k, .bool true) :: parseFlags (v :: rest)) ∧
    (∀ k : String, parseFlags [("--" ++ k)] = [(k, .bool true)]) := by
  refine ⟨rfl, by decide, fun g rest => rfl, parseFlags_flag_value, rfl, rfl, ?_,
    parseFlags_flag_novalue, parseFlags_flag_last⟩
  intro v h1 h2
  rw [coerceValue, if_neg h1, if_neg h2]

/-- Witness for C9 at concrete flags: a consumed string value, a boolean
coercion, an unconsumed `--` token and a trailing flag. -/
theorem c9_cli_front_end_witness :
    (parseArgs ["crud-module", "--fields"] =
      .run "crud-module" (parseFlags ["--fields"])) ∧
    (("name:Text" : String) ≠ "" ∧ jsStartsWith "name:Text" "--" = false ∧
      parseFlags (("--" ++ "fields") :: "name:Text" :: []) =
        ("fields", coerceValue "name:Text") :: parseFlags []) ∧
    (("name:Text" : String) ≠ "true" ∧ ("name:Text" : String) ≠ "false" ∧
      coerceValue "name:Text" = .str "name:Text") ∧
    ((("--b" : String) = "" ∨ jsStartsWith "--b" "--" = true) ∧
      parseFlags (("--" ++ "a") :: "--b" :: []) =
        ("a", .bool true) :: parseFlags ["--b"]) ∧
    (parseFlags [("--" ++ "solo")] = [("solo", .bool true)]) :=
  ⟨c9_cli_front_end.2.2.1 "crud-module" ["--fields"],
    ⟨by decide, by decide,
      c9_cli_front_end.2.2.2.1 "fields" "name:Text" [] (by decide) (by decide)⟩,
    ⟨by decide, by decide,
      c9_cli_front_end.2.2.2.2.2.2.1 "name:Text" (by decide) (by decide)⟩,
    ⟨Or.inr (by decide),
      c9_cli_front_end.2.2.2.2.2.2.2.1 "a" "--b" [] (Or.inr (by decide))⟩,
    c9_cli_front_end.2.2.2.2.2.2.2.2 "solo"⟩

/-- Claim C7: the pascal/camel case helpers treat `-`, `_` and whitespace
runs as segment delimiters, uppercasing the character after each delimiter
run and dropping the run, with `pascalCase` additionally uppercasing and
`camelCase` lowercasing the first character; the three spec examples hold,
and the helpers are total Lean functions (they never throw). -/
theorem c7_case_helpers :
    pascalCase "user-name" = "UserName" ∧
    camelCase "user_name" = "userName" ∧
    kebabCase "UserName" = "user-name" ∧
    (∀ (xs ds ys : List Char) (c : Char),
      ds ≠ [] → (∀ d ∈ ds, isDelim d = true) → isDelim c = false →
      (∀ x ∈ xs, isDelim x = false) →
      pascalCore (xs ++ ds ++ c :: ys) = xs ++ c.toUpper :: pascalCore ys) ∧
    (∀ l : List Char, (∀ c ∈ l, isDelim c = false) → pascalCore l = l) ∧
    (∀ (c : Char) (l : List Char), isDelim c = false →
      pascalCase ⟨c :: l⟩ = ⟨c.toUpper :: pascalCore l⟩ ∧
      camelCase ⟨c :: l⟩ = ⟨c.toLower :: pascalCore l⟩) := by
  refine ⟨by decide, by decide, by decide, pascalCore_run, pascalCore_id, ?_⟩
  intro c l h
  constructor
  · rw [pascalCase, data_mk, pascalCore_cons c l h]
    rfl
  · rw [camelCase, data_mk, pascalCore_cons c l h]
    rfl

/-- Witness for C7 at concrete character lists and strings. -/
theorem c7_case_helpers_witness :
    ((['-', '_'] : List Char) ≠ [] ∧
      pascalCore (['u'] ++ ['-', '_'] ++ 'n' :: ['x']) =
        ['u'] ++ 'n'.toUpper :: pascalCore ['x']) ∧
    pascalCore ['a', 'b'] = ['a', 'b'] ∧
    (pascalCase ⟨'u' :: ['p']⟩ = ⟨'u'.toUpper :: pascalCore ['p']⟩ ∧
      camelCase ⟨'u' :: ['p']⟩ = ⟨'u'.toLower :: pascalCore ['p']⟩) :=
  ⟨⟨by decide,
      c7_case_helpers.2.2.2.1 ['u'] ['-', '_'] ['x'] 'n' (by decide) (by decide)
        (by decide) (by decide)⟩,
    c7_case_helpers.2.2.2.2.1 ['a', 'b'] (by decide),
    c7_case_helpers.2.2.2.2.2 'u' ['p'] (by decide)⟩

/-- Claim C1 counterexample: a shorthand segment with two colons is not
split on the first colon only — the JS destructuring keeps just the part
between the first and second colon as the type and discards the rest, so
`parseFieldSpecs("a:b:c")` yields type `"b"`, not `"b:c"`. -/
theorem c1_counterexample :
    parseFields "a:b:c" = .jarr [mkField "a" "b"] ∧
    parseFields "a:b:c" ≠ .jarr [mkField "a" "b:c"] := by
  have h1 : parseFields "a:b:c" = .jarr [mkField "a" "b"] := by rfl
  refine ⟨h1, ?_⟩
  rw [h1]
  simp [mkField]

/-- Claim C1, amended: for every non-empty input string that does not start
with `[`, `parseFieldSpecs` splits the input on `,` and each segment on
`:`, keeping only the first two parts — the name is the part before the
first colon and the type the part between the first and second colon, any
remainder being discarded; both sides are trimmed; the type defaults to
`"Text"` when the colon is absent or the part after it is empty; segments
whose name is empty after trimming are dropped; and the spec example holds. -/
theorem c1_shorthand_parsing :
    (parseFields "name:Text,count:Nat" =
      .jarr [mkField "name" "Text", mkField "count" "Nat"]) ∧
    (∀ s : String, s ≠ "" → jsStartsWith s "[" = false →
      parseFields s = .jarr ((shorthandFields s).map fun f => mkField f.1 f.2)) ∧
    (∀ s₁ s₂ : String,
      shorthandFields (s₁ ++ "," ++ s₂) = shorthandFields s₁ ++ shorthandFields s₂) ∧
    (∀ seg : List Char, ':' ∉ seg → parseSegment seg = (⟨trimChars seg⟩, "Text")) ∧
    (∀ a b : List Char, ':' ∉ a → ':' ∉ b →
      parseSegment (a ++ ':' :: b) =
        (⟨trimChars a⟩, if trimChars b = [] then "Text" else ⟨trimChars b⟩)) ∧
    (∀ a b c : List Char, ':' ∉ a → ':' ∉ b → ':' ∉ c →
      parseSegment (a ++ ':' :: (b ++ ':' :: c)) =
        (⟨trimChars a⟩, if b = [] then "Text" else ⟨trimChars b⟩)) ∧
    (∀ (s : String) (f : String × String), f ∈ shorthandFields s → f.1 ≠ "") := by
  refine ⟨by rfl, ?_, shorthandFields_append, parseSegment_no_colon, parseSegment_one_colon,
    parseSegment_two_colons, mem_shorthandFields_name_ne⟩
  intro s h1 h2
  rw [parseFields, if_neg h1, if_neg (by rw [h2]; exact Bool.false_ne_true)]

/-- Witness for C1 at concrete shorthand inputs and segments. -/
theorem c1_shorthand_parsing_witness :
    (("a:b" : String) ≠ "" ∧ jsStartsWith "a:b" "[" = false ∧
      parseFields "a:b" = .jarr ((shorthandFields "a:b").map fun f => mkField f.1 f.2)) ∧
    shorthandFields ("x:Nat" ++ "," ++ "y") =
      shorthandFields "x:Nat" ++ shorthandFields "y" ∧
    parseSegment " ab ".data = (⟨trimChars " ab ".data⟩, "Text") ∧
    parseSegment (" a ".data ++ ':' :: " b ".data) =
      (⟨trimChars " a ".data⟩,
        if trimChars " b ".data = [] then "Text" else ⟨trimChars " b ".data⟩) ∧
    parseSegment (['a'] ++ ':' :: (['b'] ++ ':' :: ['c'])) =
      (⟨trimChars ['a']⟩, if (['b'] : List Char) = [] then "Text" else ⟨trimChars ['b']⟩) ∧
    (("x", "Nat") ∈ shorthandFields "x:Nat" ∧ ("x", "Nat").1 ≠ "") :=
  ⟨⟨by decide, by decide,
      c1_shorthand_parsing.2.1 "a:b" (by decide) (by decide)⟩,
    c1_shorthand_parsing.2.2.1 "x:Nat" "y",
    c1_shorthand_parsing.2.2.2.1 " ab ".data (by decide),
    c1_shorthand_parsing.2.2.2.2.1 " a ".data " b ".data (by decide) (by decide),
    c1_shorthand_parsing.2.2.2.2.2.1 ['a'] ['b'] ['c'] (by decide) (by decide) (by decide),
    ⟨by decide,
      c1_shorthand_parsing.2.2.2.2.2.2 "x:Nat" ("x", "Nat") (by decide)⟩⟩

end Monorail
